import Mathlib

/-!
Shallow embedding of `src/static/script.js`:

```js
document.addEventListener("DOMContentLoaded", () => {
    const flashes = document.querySelectorAll(".flash");
    flashes.forEach(f => {
        setTimeout(() => { f.style.opacity = 0; }, 3000);
    });
});
```

The DOM is modelled as a store of element objects (referenced by index,
mirroring JS object identity) together with the list of element references
currently attached to the document.  The script's single event handler
snapshots the elements matching the class selector `.flash` and schedules,
for each, one timeout that fires 3000 ms later and writes the inline style
property `opacity := "0"` on the captured element object (JS coerces the
number `0` to the string `"0"` when assigning to a style property).
Time advancement runs every pending timeout whose deadline has passed.
-/

namespace FlashFade

/-- A DOM element object: its class list and its inline style declarations
(an ordered property/value map, as in `el.style`). -/
structure Elem where
  classes : List String
  styles : List (String × String)
deriving Repr, DecidableEq

/-- The page: `store` holds every element object ever created (an element
reference is an index into `store`, mirroring JS object identity), and
`inDoc` lists the references currently attached to the document, in
document order. -/
structure Page where
  store : List Elem
  inDoc : List Nat
deriving Repr, DecidableEq

/-- One scheduled `setTimeout` callback of the script: the captured element
reference and the absolute time at which it fires. -/
structure Timeout where
  target : Nat
  fireAt : Nat
deriving Repr, DecidableEq

/-- Scheduler state: the page plus the queue of pending timeouts. -/
structure Sched where
  page : Page
  pending : List Timeout
deriving Repr, DecidableEq

/-- `el.classList.contains c` — membership of `c` in the element's class list. -/
def hasClass (e : Elem) (c : String) : Bool := e.classes.contains c

/-- Write a style property: replace the first existing declaration of `p`,
or append a new one (the CSSOM keeps one declaration per property). -/
def setProp : List (String × String) → String → String → List (String × String)
  | [], p, v => [(p, v)]
  | (q, w) :: rest, p, v => if q = p then (p, v) :: rest else (q, w) :: setProp rest p v

/-- Read a style property: value of its first declaration, if any. -/
def getProp : List (String × String) → String → Option String
  | [], _ => none
  | (q, w) :: rest, p => if q = p then some w else getProp rest p

/-- `el.style[p] = v`. -/
def setStyle (e : Elem) (p v : String) : Elem := { e with styles := setProp e.styles p v }

/-- `el.style[p]`. -/
def getStyle (e : Elem) (p : String) : Option String := getProp e.styles p

/-- `document.querySelectorAll("." ++ c)`: the references, in document
order, of attached elements whose class list contains `c`. -/
def querySelectorAll (pg : Page) (c : String) : List Nat :=
  pg.inDoc.filter (fun i =>
    match pg.store[i]? with
    | some e => hasClass e c
    | none => false)

/-- Apply `g` to the element object at reference `i` (identity when `i` is
not a live reference). -/
def modifyAt (g : Elem → Elem) : List Elem → Nat → List Elem
  | [], _ => []
  | e :: rest, 0 => g e :: rest
  | e :: rest, n + 1 => e :: modifyAt g rest n

/-- The body of the script's timeout callback: `f.style.opacity = 0`
(JS stores the string `"0"`). -/
def fade (e : Elem) : Elem := setStyle e "opacity" "0"

/-- Run one timeout callback: it writes opacity `"0"` on the captured
element object, whether or not that object is still attached. -/
def fire (pg : Page) (tm : Timeout) : Page :=
  { pg with store := modifyAt fade pg.store tm.target }

/-- Deliver one browser event `(name, time)` to the script.  The script
registered exactly one listener, for `"DOMContentLoaded"`: on that event it
snapshots `querySelectorAll(".flash")` and schedules one 3000 ms timeout per
matched element; every other event is ignored. -/
def handleEvent (s : Sched) (ev : String × Nat) : Sched :=
  if ev.1 = "DOMContentLoaded" then
    { page := s.page,
      pending := s.pending ++
        (querySelectorAll s.page "flash").map (fun i => ⟨i, ev.2 + 3000⟩) }
  else s

/-- The effect of the `DOMContentLoaded` trigger at time `t0` on a page
with an empty timeout queue. -/
def domContentLoaded (pg : Page) (t0 : Nat) : Sched :=
  handleEvent { page := pg, pending := [] } ("DOMContentLoaded", t0)

/-- Deliver a whole trace of browser events to a freshly loaded page. -/
def dispatchAll (pg : Page) (evts : List (String × Nat)) : Sched :=
  evts.foldl handleEvent { page := pg, pending := [] }

/-- Advance the clock to time `t`: every pending timeout whose deadline has
passed fires (in queue order); the rest stay pending. -/
def advanceTo (s : Sched) (t : Nat) : Sched :=
  { page := (s.pending.filter (fun tm => decide (tm.fireAt ≤ t))).foldl fire s.page,
    pending := s.pending.filter (fun tm => decide (t < tm.fireAt)) }

/-- The page as observed at time `t`, when the `DOMContentLoaded` trigger
fired at time `t0` on initial page `pg` and no other activity occurred. -/
def stateAt (pg : Page) (t0 t : Nat) : Page :=
  if t < t0 then pg else (advanceTo (domContentLoaded pg t0) t).page

/-- `el.remove()`: detach reference `i` from the document; the element
object itself stays alive in the store. -/
def removeElem (pg : Page) (i : Nat) : Page :=
  { pg with inDoc := pg.inDoc.filter (fun j => decide (j ≠ i)) }

/-- Create a fresh element object and append it to the document.  Its
reference is the next free index, `pg.store.length`. -/
def addElem (pg : Page) (e : Elem) : Page :=
  { store := pg.store ++ [e], inDoc := pg.inDoc ++ [pg.store.length] }

/-- `el.classList.add c`. -/
def addClass (e : Elem) (c : String) : Elem := { e with classes := e.classes ++ [c] }

/-- Run a list of timeout callbacks in the given order. -/
def execAll (pg : Page) (l : List Timeout) : Page := l.foldl fire pg

/-! ### Basic lemmas about style maps and element updates -/

lemma getProp_setProp_same (s : List (String × String)) (p v : String) :
    getProp (setProp s p v) p = some v := by
  induction s with
  | nil => simp [setProp, getProp]
  | cons hd tl ih =>
    obtain ⟨q, w⟩ := hd
    by_cases h : q = p
    · simp [setProp, getProp, h]
    · simp [setProp, getProp, h, ih]

lemma getProp_setProp_other (s : List (String × String)) (p v q : String)
    (h : q ≠ p) : getProp (setProp s p v) q = getProp s q := by
  induction s with
  | nil => simp [setProp, getProp, Ne.symm h]
  | cons hd tl ih =>
    obtain ⟨r, w⟩ := hd
    by_cases hr : r = p
    · subst hr
      simp [setProp, getProp, Ne.symm h]
    · by_cases hq : r = q
      · subst hq
        simp [setProp, getProp, hr]
      · simp [setProp, getProp, hr, hq, ih]

lemma getStyle_fade (e : Elem) : getStyle (fade e) "opacity" = some "0" :=
  getProp_setProp_same e.styles "opacity" "0"

lemma getStyle_fade_other (e : Elem) (q : String) (h : q ≠ "opacity") :
    getStyle (fade e) q = getStyle e q :=
  getProp_setProp_other e.styles "opacity" "0" q h

lemma fade_classes (e : Elem) : (fade e).classes = e.classes := rfl

lemma getStyle_addClass (e : Elem) (c q : String) :
    getStyle (addClass e c) q = getStyle e q := rfl

lemma modifyAt_getElem (g : Elem → Elem) (l : List Elem) (i j : Nat) :
    (modifyAt g l i)[j]? = if i = j then (l[j]?).map g else l[j]? := by
  induction l generalizing i j with
  | nil => cases i <;> simp [modifyAt]
  | cons hd tl ih =>
    cases i with
    | zero =>
      cases j with
      | zero => simp [modifyAt]
      | succ m => simp [modifyAt]
    | succ n =>
      cases j with
      | zero => simp [modifyAt]
      | succ m => simpa [modifyAt] using ih n m

/-! ### Lemmas about firing timeouts -/

lemma fire_inDoc (pg : Page) (tm : Timeout) : (fire pg tm).inDoc = pg.inDoc := rfl

lemma foldl_fire_inDoc (l : List Timeout) (pg : Page) :
    (l.foldl fire pg).inDoc = pg.inDoc := by
  induction l generalizing pg with
  | nil => rfl
  | cons hd tl ih => simpa [List.foldl_cons, fire_inDoc] using ih (fire pg hd)

lemma foldl_fire_untouched (l : List Timeout) (pg : Page) (i : Nat)
    (h : ∀ tm ∈ l, tm.target ≠ i) :
    (l.foldl fire pg).store[i]? = pg.store[i]? := by
  induction l generalizing pg with
  | nil => rfl
  | cons hd tl ih =>
    have hhd : hd.target ≠ i := h hd (by simp)
    have htl : ∀ tm ∈ tl, tm.target ≠ i := fun tm hm => h tm (by simp [hm])
    rw [List.foldl_cons, ih (fire pg hd) htl]
    simp [fire, modifyAt_getElem, hhd]

lemma foldl_fire_preserve (l : List Timeout) (pg : Page) (i : Nat) (e : Elem)
    (h : pg.store[i]? = some e) :
    ∃ e', (l.foldl fire pg).store[i]? = some e' ∧ e'.classes = e.classes ∧
      ∀ q, q ≠ "opacity" → getStyle e' q = getStyle e q := by
  induction l generalizing pg e with
  | nil => exact ⟨e, h, rfl, fun _ _ => rfl⟩
  | cons hd tl ih =>
    rw [List.foldl_cons]
    by_cases ht : hd.target = i
    · have hstep : (fire pg hd).store[i]? = some (fade e) := by
        simp [fire, modifyAt_getElem, ht, h]
      obtain ⟨e', h1, h2, h3⟩ := ih (fire pg hd) (fade e) hstep
      exact ⟨e', h1, by rw [h2, fade_classes],
        fun q hq => (h3 q hq).trans (getStyle_fade_other e q hq)⟩
    · have hstep : (fire pg hd).store[i]? = some e := by
        simp [fire, modifyAt_getElem, ht, h]
      exact ih (fire pg hd) e hstep

lemma foldl_fire_keeps_zero (l : List Timeout) (pg : Page) (i : Nat) (e : Elem)
    (h : pg.store[i]? = some e) (hz : getStyle e "opacity" = some "0") :
    ∃ e', (l.foldl fire pg).store[i]? = some e' ∧ getStyle e' "opacity" = some "0" := by
  induction l generalizing pg e with
  | nil => exact ⟨e, h, hz⟩
  | cons hd tl ih =>
    rw [List.foldl_cons]
    by_cases ht : hd.target = i
    · have hstep : (fire pg hd).store[i]? = some (fade e) := by
        simp [fire, modifyAt_getElem, ht, h]
      exact ih (fire pg hd) (fade e) hstep (getStyle_fade e)
    · have hstep : (fire pg hd).store[i]? = some e := by
        simp [fire, modifyAt_getElem, ht, h]
      exact ih (fire pg hd) e hstep hz

lemma foldl_fire_hits (l : List Timeout) (pg : Page) (i : Nat) (e : Elem)
    (h : pg.store[i]? = some e) (hmem : ∃ tm ∈ l, tm.target = i) :
    ∃ e', (l.foldl fire pg).store[i]? = some e' ∧ getStyle e' "opacity" = some "0" := by
  induction l generalizing pg e with
  | nil => simp at hmem
  | cons hd tl ih =>
    rw [List.foldl_cons]
    by_cases ht : hd.target = i
    · have hstep : (fire pg hd).store[i]? = some (fade e) := by
        simp [fire, modifyAt_getElem, ht, h]
      exact foldl_fire_keeps_zero tl (fire pg hd) i (fade e) hstep (getStyle_fade e)
    · have hstep : (fire pg hd).store[i]? = some e := by
        simp [fire, modifyAt_getElem, ht, h]
      obtain ⟨tm, hm, htm⟩ := hmem
      rcases List.mem_cons.mp hm with rfl | hm'
      · exact absurd htm ht
      · exact ih (fire pg hd) e hstep ⟨tm, hm', htm⟩

/-! ### Lemmas about the selector snapshot and the trigger -/

lemma mem_querySelectorAll (pg : Page) (c : String) (i : Nat) :
    i ∈ querySelectorAll pg c ↔
      i ∈ pg.inDoc ∧ ∃ e, pg.store[i]? = some e ∧ hasClass e c = true := by
  simp only [querySelectorAll, List.mem_filter]
  constructor
  · rintro ⟨hdoc, hsel⟩
    refine ⟨hdoc, ?_⟩
    cases hst : pg.store[i]? with
    | none => rw [hst] at hsel; simp at hsel
    | some e => rw [hst] at hsel; exact ⟨e, rfl, hsel⟩
  · rintro ⟨hdoc, e, hst, hcls⟩
    exact ⟨hdoc, by rw [hst]; exact hcls⟩

lemma querySelectorAll_target_lt (pg : Page) (c : String) (i : Nat)
    (h : i ∈ querySelectorAll pg c) : i < pg.store.length := by
  obtain ⟨-, e, hst, -⟩ := (mem_querySelectorAll pg c i).mp h
  exact (List.getElem?_eq_some.mp hst).1

lemma domContentLoaded_page (pg : Page) (t0 : Nat) :
    (domContentLoaded pg t0).page = pg := rfl

lemma domContentLoaded_pending (pg : Page) (t0 : Nat) :
    (domContentLoaded pg t0).pending =
      (querySelectorAll pg "flash").map (fun i => ⟨i, t0 + 3000⟩) := by
  simp [domContentLoaded, handleEvent]

lemma pending_target_mem (pg : Page) (t0 : Nat) (tm : Timeout)
    (h : tm ∈ (domContentLoaded pg t0).pending) :
    tm.target ∈ querySelectorAll pg "flash" ∧ tm.fireAt = t0 + 3000 := by
  rw [domContentLoaded_pending] at h
  obtain ⟨i, hi, rfl⟩ := List.mem_map.mp h
  exact ⟨hi, rfl⟩

/-! ### Lemmas about time advancement -/

lemma pending_filter_all (pg : Page) (t0 t : Nat) (h : t0 + 3000 ≤ t) :
    (domContentLoaded pg t0).pending.filter (fun tm => decide (tm.fireAt ≤ t)) =
      (domContentLoaded pg t0).pending := by
  refine List.filter_eq_self.mpr (fun tm hm => ?_)
  have := (pending_target_mem pg t0 tm hm).2
  simp [this, h]

lemma advanceTo_all_due (pg : Page) (t0 t : Nat) (h : t0 + 3000 ≤ t) :
    (advanceTo (domContentLoaded pg t0) t).page =
      (domContentLoaded pg t0).pending.foldl fire pg := by
  rw [advanceTo, pending_filter_all pg t0 t h, domContentLoaded_page]

lemma advanceTo_none_due (pg : Page) (t0 t : Nat) (h : t < t0 + 3000) :
    (advanceTo (domContentLoaded pg t0) t).page = pg := by
  have hfilter : (domContentLoaded pg t0).pending.filter
      (fun tm => decide (tm.fireAt ≤ t)) = [] := by
    refine List.filter_eq_nil_iff.mpr (fun tm hm => ?_)
    have := (pending_target_mem pg t0 tm hm).2
    simp [this]
    omega
  rw [advanceTo, hfilter, domContentLoaded_page]
  rfl

lemma stateAt_late (pg : Page) (t0 t : Nat) (h : t0 + 3000 ≤ t) :
    stateAt pg t0 t = (domContentLoaded pg t0).pending.foldl fire pg := by
  rw [stateAt, if_neg (by omega), advanceTo_all_due pg t0 t h]

/-! ### Commutation of the timeout callbacks -/

lemma modifyAt_fade_comm (l : List Elem) (i j : Nat) :
    modifyAt fade (modifyAt fade l i) j = modifyAt fade (modifyAt fade l j) i := by
  induction l generalizing i j with
  | nil => simp [modifyAt]
  | cons hd tl ih =>
    cases i with
    | zero =>
      cases j with
      | zero => rfl
      | succ m => rfl
    | succ n =>
      cases j with
      | zero => rfl
      | succ m => simpa [modifyAt] using ih n m

lemma fire_comm (pg : Page) (t1 t2 : Timeout) :
    fire (fire pg t1) t2 = fire (fire pg t2) t1 := by
  simp [fire, modifyAt_fade_comm]

lemma execAll_perm (pg : Page) {l1 l2 : List Timeout} (h : l1.Perm l2) :
    execAll pg l1 = execAll pg l2 := by
  induction h generalizing pg with
  | nil => rfl
  | cons x p ih => simpa [execAll, List.foldl_cons] using ih (fire pg x)
  | swap x y l => simp [execAll, List.foldl_cons, fire_comm]
  | trans p q ih1 ih2 => exact (ih1 pg).trans (ih2 pg)

/-! ### Lemmas about event delivery -/

lemma handleEvent_skip (s : Sched) (ev : String × Nat)
    (h : ev.1 ≠ "DOMContentLoaded") : handleEvent s ev = s := by
  simp [handleEvent, h]

lemma foldl_handleEvent_skip (l : List (String × Nat)) (s : Sched)
    (h : ∀ ev ∈ l, ev.1 ≠ "DOMContentLoaded") : l.foldl handleEvent s = s := by
  induction l generalizing s with
  | nil => rfl
  | cons hd tl ih =>
    rw [List.foldl_cons, handleEvent_skip s hd (h hd (by simp))]
    exact ih s (fun ev hm => h ev (by simp [hm]))

lemma stateAt_eq_foldl (pg : Page) (t0 t : Nat) :
    ∃ l : List Timeout, (∀ tm ∈ l, tm.target ∈ querySelectorAll pg "flash") ∧
      stateAt pg t0 t = l.foldl fire pg := by
  rw [stateAt]
  split
  · exact ⟨[], by simp, rfl⟩
  · refine ⟨(domContentLoaded pg t0).pending.filter (fun tm => decide (tm.fireAt ≤ t)),
      fun tm hm => (pending_target_mem pg t0 tm (List.mem_filter.mp hm).1).1, rfl⟩

/-! ### The claims -/

/-- Claim C1: every element carrying class "flash" that is attached to the
document at the trigger event has its inline opacity style equal to "0" at
any time at or after 3000 ms past the trigger. -/
theorem flash_opacity_zero_after_delay (pg : Page) (t0 t i : Nat) (e : Elem)
    (he : pg.store[i]? = some e) (hdoc : i ∈ pg.inDoc)
    (hcls : hasClass e "flash" = true) (ht : t0 + 3000 ≤ t) :
    ∃ e', (stateAt pg t0 t).store[i]? = some e' ∧ getStyle e' "opacity" = some "0" := by
  rw [stateAt_late pg t0 t ht]
  refine foldl_fire_hits _ pg i e he ⟨⟨i, t0 + 3000⟩, ?_, rfl⟩
  rw [domContentLoaded_pending]
  exact List.mem_map.mpr
    ⟨i, (mem_querySelectorAll pg "flash" i).mpr ⟨hdoc, e, he, hcls⟩, rfl⟩

/-- Witness for C1 on a one-element document. -/
theorem flash_opacity_zero_after_delay_witness :
    ∃ e', (stateAt ⟨[⟨["flash"], []⟩], [0]⟩ 0 3000).store[0]? = some e' ∧
      getStyle e' "opacity" = some "0" :=
  flash_opacity_zero_after_delay ⟨[⟨["flash"], []⟩], [0]⟩ 0 3000 0 ⟨["flash"], []⟩
    (by decide) (by decide) (by decide) (by decide)

/-- Claim C2: the trigger handler schedules exactly one deferred action per
matched flash element: the pending queue has the same length as the selector
result, and its targets are exactly the matched elements in order. -/
theorem one_timeout_per_flash (pg : Page) (t0 : Nat) :
    (domContentLoaded pg t0).pending.length = (querySelectorAll pg "flash").length ∧
    (domContentLoaded pg t0).pending.map Timeout.target = querySelectorAll pg "flash" := by
  rw [domContentLoaded_pending]
  refine ⟨by simp, ?_⟩
  have hcomp : (Timeout.target ∘ fun i => ({ target := i, fireAt := t0 + 3000 } : Timeout)) = id := rfl
  rw [List.map_map, hcomp, List.map_id]

/-- Claim C3: the script mutates only the opacity of flash elements — the
attached-reference list is unchanged, a non-flash element is entirely
unchanged, and every style property other than opacity (and the class list)
of every element is unchanged; the model has no other state to affect. -/
theorem script_frame_effect (pg : Page) (t0 t i : Nat) (e : Elem) (q : String)
    (he : pg.store[i]? = some e) :
    (stateAt pg t0 t).inDoc = pg.inDoc ∧
    (hasClass e "flash" = false → (stateAt pg t0 t).store[i]? = some e) ∧
    (q ≠ "opacity" → ∃ e', (stateAt pg t0 t).store[i]? = some e' ∧
      getStyle e' q = getStyle e q ∧ e'.classes = e.classes) := by
  obtain ⟨l, hl, heq⟩ := stateAt_eq_foldl pg t0 t
  rw [heq]
  refine ⟨foldl_fire_inDoc l pg, ?_, ?_⟩
  · intro hnf
    refine (foldl_fire_untouched l pg i (fun tm hm hti => ?_)).trans he
    obtain ⟨-, e2, he2, hc2⟩ :=
      (mem_querySelectorAll pg "flash" i).mp (hti ▸ hl tm hm)
    rw [he] at he2
    rw [Option.some.inj he2] at hnf
    rw [hnf] at hc2
    exact Bool.false_ne_true hc2
  · intro hq
    obtain ⟨e', h1, h2, h3⟩ := foldl_fire_preserve l pg i e he
    exact ⟨e', h1, h3 q hq, h2⟩

/-- Witness for C3 on a two-element document with one non-flash element. -/
theorem script_frame_effect_witness :
    (stateAt ⟨[⟨["flash"], []⟩, ⟨["note"], []⟩], [0, 1]⟩ 0 3000).inDoc = [0, 1] ∧
    (hasClass ⟨["note"], []⟩ "flash" = false →
      (stateAt ⟨[⟨["flash"], []⟩, ⟨["note"], []⟩], [0, 1]⟩ 0 3000).store[1]? =
        some ⟨["note"], []⟩) ∧
    ("color" ≠ "opacity" → ∃ e',
      (stateAt ⟨[⟨["flash"], []⟩, ⟨["note"], []⟩], [0, 1]⟩ 0 3000).store[1]? = some e' ∧
      getStyle e' "color" = getStyle ⟨["note"], []⟩ "color" ∧
      e'.classes = Elem.classes ⟨["note"], []⟩) :=
  script_frame_effect ⟨[⟨["flash"], []⟩, ⟨["note"], []⟩], [0, 1]⟩ 0 3000 1
    ⟨["note"], []⟩ "color" (by decide)

/-- Claim C4: with zero flash elements at trigger time, no deferred action
is scheduled and the page is never mutated (and the total model raises no
error). -/
theorem no_flash_no_action (pg : Page) (t0 t : Nat)
    (h : querySelectorAll pg "flash" = []) :
    (domContentLoaded pg t0).pending = [] ∧ stateAt pg t0 t = pg := by
  have hp : (domContentLoaded pg t0).pending = [] := by
    rw [domContentLoaded_pending, h]
    rfl
  refine ⟨hp, ?_⟩
  rw [stateAt]
  split
  · rfl
  · simp [advanceTo, hp, domContentLoaded_page]

/-- Witness for C4 on a document with one non-flash element. -/
theorem no_flash_no_action_witness :
    (domContentLoaded ⟨[⟨["note"], []⟩], [0]⟩ 5).pending = [] ∧
    stateAt ⟨[⟨["note"], []⟩], [0]⟩ 5 10000 = ⟨[⟨["note"], []⟩], [0]⟩ :=
  no_flash_no_action ⟨[⟨["note"], []⟩], [0]⟩ 5 10000 (by decide)

/-- Claim C5: detaching a matched flash element before the delay elapses is
harmless — when its deferred action later runs, the total model raises no
error: the opacity write is applied to the now-detached element object while
the element stays out of the document. -/
theorem removed_element_write_harmless (pg : Page) (t0 t i : Nat) (e : Elem)
    (he : pg.store[i]? = some e) (hdoc : i ∈ pg.inDoc)
    (hcls : hasClass e "flash" = true) (ht : t0 + 3000 ≤ t) :
    i ∉ (advanceTo ⟨removeElem pg i, (domContentLoaded pg t0).pending⟩ t).page.inDoc ∧
    ∃ e', (advanceTo ⟨removeElem pg i,
        (domContentLoaded pg t0).pending⟩ t).page.store[i]? = some e' ∧
      getStyle e' "opacity" = some "0" := by
  constructor
  · rw [advanceTo]
    rw [foldl_fire_inDoc]
    simp [removeElem, List.mem_filter]
  · rw [advanceTo]
    rw [pending_filter_all pg t0 t ht]
    refine foldl_fire_hits _ _ i e he ⟨⟨i, t0 + 3000⟩, ?_, rfl⟩
    rw [domContentLoaded_pending]
    exact List.mem_map.mpr
      ⟨i, (mem_querySelectorAll pg "flash" i).mpr ⟨hdoc, e, he, hcls⟩, rfl⟩

/-- Witness for C5: the single flash element is detached right after the
trigger; at 3000 ms the detached object carries opacity "0" and the document
is still empty. -/
theorem removed_element_write_harmless_witness :
    0 ∉ (advanceTo ⟨removeElem ⟨[⟨["flash"], []⟩], [0]⟩ 0,
        (domContentLoaded ⟨[⟨["flash"], []⟩], [0]⟩ 0).pending⟩ 3000).page.inDoc ∧
    ∃ e', (advanceTo ⟨removeElem ⟨[⟨["flash"], []⟩], [0]⟩ 0,
        (domContentLoaded ⟨[⟨["flash"], []⟩], [0]⟩ 0).pending⟩ 3000).page.store[0]? =
          some e' ∧ getStyle e' "opacity" = some "0" :=
  removed_element_write_harmless ⟨[⟨["flash"], []⟩], [0]⟩ 0 3000 0 ⟨["flash"], []⟩
    (by decide) (by decide) (by decide) (by decide)

/-- Claim C6: before 3000 ms have elapsed past the trigger, the script has
mutated nothing: the page equals the initial page, so every flash element's
opacity still has its initial (default) value. -/
theorem no_mutation_before_delay (pg : Page) (t0 t : Nat) (h1 : t0 ≤ t)
    (h2 : t < t0 + 3000) : stateAt pg t0 t = pg := by
  rw [stateAt, if_neg (by omega)]
  exact advanceTo_none_due pg t0 t h2

/-- Witness for C6: immediately after the trigger and just before the
deadline, the page is untouched. -/
theorem no_mutation_before_delay_witness :
    stateAt ⟨[⟨["flash"], []⟩], [0]⟩ 0 2999 = ⟨[⟨["flash"], []⟩], [0]⟩ :=
  no_mutation_before_delay ⟨[⟨["flash"], []⟩], [0]⟩ 0 2999 (by decide) (by decide)

/-- Claim C7: the script's only listener is on "DOMContentLoaded", so over
any event trace containing exactly one structural-load-complete event the
fade behavior triggers exactly once: the whole trace has the same effect as
that single trigger, and no other event triggers it. -/
theorem trigger_exactly_once (pg : Page) (t0 : Nat) (pre post : List (String × Nat))
    (hpre : ∀ ev ∈ pre, ev.1 ≠ "DOMContentLoaded")
    (hpost : ∀ ev ∈ post, ev.1 ≠ "DOMContentLoaded") :
    dispatchAll pg (pre ++ ("DOMContentLoaded", t0) :: post) = domContentLoaded pg t0 := by
  rw [dispatchAll, List.foldl_append, foldl_handleEvent_skip pre _ hpre, List.foldl_cons]
  exact foldl_handleEvent_skip post _ hpost

/-- Witness for C7: a trace with a click, the load event, and a scroll
behaves exactly as the single trigger. -/
theorem trigger_exactly_once_witness :
    dispatchAll ⟨[⟨["flash"], []⟩], [0]⟩
        [("click", 1), ("DOMContentLoaded", 2), ("scroll", 4000)] =
      domContentLoaded ⟨[⟨["flash"], []⟩], [0]⟩ 2 :=
  trigger_exactly_once ⟨[⟨["flash"], []⟩], [0]⟩ 2 [("click", 1)] [("scroll", 4000)]
    (by decide) (by decide)

/-- Claim C8: the deferred actions are mutually independent — running them
in any two orders that are permutations of one another yields the same
final page, because the per-element opacity writes commute. -/
theorem deferred_actions_commute (pg : Page) (l1 l2 : List Timeout)
    (h : l1.Perm l2) : execAll pg l1 = execAll pg l2 :=
  execAll_perm pg h

/-- Witness for C8: the two timeouts of a two-flash document can fire in
either order. -/
theorem deferred_actions_commute_witness :
    execAll ⟨[⟨["flash"], []⟩, ⟨["flash"], []⟩], [0, 1]⟩ [⟨0, 3000⟩, ⟨1, 3000⟩] =
      execAll ⟨[⟨["flash"], []⟩, ⟨["flash"], []⟩], [0, 1]⟩ [⟨1, 3000⟩, ⟨0, 3000⟩] :=
  deferred_actions_commute ⟨[⟨["flash"], []⟩, ⟨["flash"], []⟩], [0, 1]⟩
    [⟨0, 3000⟩, ⟨1, 3000⟩] [⟨1, 3000⟩, ⟨0, 3000⟩] (by decide)

/-- Claim C9: the selector result is snapshotted at trigger time — an
element inserted after the trigger is never targeted by a scheduled timeout
and is never mutated, and an element that acquires the "flash" class after
the trigger keeps its opacity untouched. -/
theorem snapshot_excludes_later_elements (pg : Page) (t0 t i : Nat)
    (newE e0 : Elem) (he : pg.store[i]? = some e0)
    (hcls : hasClass e0 "flash" = false) :
    pg.store.length ∉ (domContentLoaded pg t0).pending.map Timeout.target ∧
    (advanceTo ⟨addElem pg newE,
      (domContentLoaded pg t0).pending⟩ t).page.store[pg.store.length]? = some newE ∧
    ∃ e', (advanceTo ⟨⟨modifyAt (fun x => addClass x "flash") pg.store i, pg.inDoc⟩,
        (domContentLoaded pg t0).pending⟩ t).page.store[i]? = some e' ∧
      getStyle e' "opacity" = getStyle e0 "opacity" := by
  refine ⟨?_, ?_, ?_⟩
  · intro hmem
    obtain ⟨tm, hm, htm⟩ := List.mem_map.mp hmem
    have hlt := querySelectorAll_target_lt pg "flash" tm.target
      (pending_target_mem pg t0 tm hm).1
    omega
  · rw [advanceTo]
    have huntouched : ∀ tm ∈ (domContentLoaded pg t0).pending.filter
        (fun tm => decide (tm.fireAt ≤ t)), tm.target ≠ pg.store.length := by
      intro tm hm
      have hlt := querySelectorAll_target_lt pg "flash" tm.target
        (pending_target_mem pg t0 tm (List.mem_filter.mp hm).1).1
      omega
    rw [foldl_fire_untouched _ _ _ huntouched]
    show (pg.store ++ [newE])[pg.store.length]? = some newE
    simp
  · rw [advanceTo]
    have huntouched : ∀ tm ∈ (domContentLoaded pg t0).pending.filter
        (fun tm => decide (tm.fireAt ≤ t)), tm.target ≠ i := by
      intro tm hm hti
      obtain ⟨-, e2, he2, hc2⟩ := (mem_querySelectorAll pg "flash" i).mp
        (hti ▸ (pending_target_mem pg t0 tm (List.mem_filter.mp hm).1).1)
      rw [he] at he2
      rw [Option.some.inj he2] at hcls
      rw [hcls] at hc2
      exact Bool.false_ne_true hc2
    rw [foldl_fire_untouched _ _ _ huntouched]
    refine ⟨addClass e0 "flash", ?_, rfl⟩
    show (modifyAt (fun x => addClass x "flash") pg.store i)[i]? =
      some (addClass e0 "flash")
    rw [modifyAt_getElem, if_pos rfl, he]
    rfl

/-- Witness for C9: a page with one non-flash element; an element inserted
after the trigger stays untouched, and the non-flash element gaining the
class after the trigger keeps its opacity. -/
theorem snapshot_excludes_later_elements_witness :
    List.length (Page.store ⟨[⟨["note"], []⟩], [0]⟩) ∉
      (domContentLoaded ⟨[⟨["note"], []⟩], [0]⟩ 0).pending.map Timeout.target ∧
    (advanceTo ⟨addElem ⟨[⟨["note"], []⟩], [0]⟩ ⟨["flash"], []⟩,
      (domContentLoaded ⟨[⟨["note"], []⟩], [0]⟩ 0).pending⟩
        3000).page.store[List.length (Page.store ⟨[⟨["note"], []⟩], [0]⟩)]? =
      some ⟨["flash"], []⟩ ∧
    ∃ e', (advanceTo ⟨⟨modifyAt (fun x => addClass x "flash")
          (Page.store ⟨[⟨["note"], []⟩], [0]⟩) 0, Page.inDoc ⟨[⟨["note"], []⟩], [0]⟩⟩,
        (domContentLoaded ⟨[⟨["note"], []⟩], [0]⟩ 0).pending⟩ 3000).page.store[0]? =
          some e' ∧
      getStyle e' "opacity" = getStyle ⟨["note"], []⟩ "opacity" :=
  snapshot_excludes_later_elements ⟨[⟨["note"], []⟩], [0]⟩ 0 3000 0 ⟨["flash"], []⟩
    ⟨["note"], []⟩ (by decide) (by decide)

/-- Claim C10: the script is deterministic — two runs over equal initial
documents mutate the same elements and produce the same final state, for
any execution orders of the deferred actions. -/
theorem deterministic_runs (p1 p2 : Page) (t0 t : Nat) (l1 l2 : List Timeout)
    (hpg : p1 = p2)
    (h1 : l1.Perm (domContentLoaded p1 t0).pending)
    (h2 : l2.Perm (domContentLoaded p2 t0).pending) :
    execAll p1 l1 = execAll p2 l2 ∧ stateAt p1 t0 t = stateAt p2 t0 t := by
  subst hpg
  exact ⟨(execAll_perm p1 h1).trans (execAll_perm p1 h2).symm, rfl⟩

/-- Witness for C10: two runs on the same two-flash document with opposite
execution orders agree. -/
theorem deterministic_runs_witness :
    execAll ⟨[⟨["flash"], []⟩, ⟨["flash"], []⟩], [0, 1]⟩ [⟨0, 3000⟩, ⟨1, 3000⟩] =
      execAll ⟨[⟨["flash"], []⟩, ⟨["flash"], []⟩], [0, 1]⟩ [⟨1, 3000⟩, ⟨0, 3000⟩] ∧
    stateAt ⟨[⟨["flash"], []⟩, ⟨["flash"], []⟩], [0, 1]⟩ 0 3000 =
      stateAt ⟨[⟨["flash"], []⟩, ⟨["flash"], []⟩], [0, 1]⟩ 0 3000 :=
  deterministic_runs ⟨[⟨["flash"], []⟩, ⟨["flash"], []⟩], [0, 1]⟩
    ⟨[⟨["flash"], []⟩, ⟨["flash"], []⟩], [0, 1]⟩ 0 3000
    [⟨0, 3000⟩, ⟨1, 3000⟩] [⟨1, 3000⟩, ⟨0, 3000⟩] rfl (by decide) (by decide)

end FlashFade
